import Mathlib

/-!
Formal model of the media-preparation pipeline of the whisper_web_ui
repository (files `whisper_webui.py`, `whisper_cli.py`, `test_db.py`).

Python floats are modelled by `ℚ`; every constant that appears in the
source (`25`, `1024 * 1024`, `24.9 * 1024`, `1.048576`) is exactly
representable there, and all comparisons and divisions the source performs
on them are exact at these magnitudes.  Python `int(...)` on a float is
truncation toward zero, modelled by `truncQ`.  Fallible Python code is
modelled with `Except`; the exit status of external processes and the
values reported by external probes are passed to the model as arguments.
-/

/-- Exceptions the modelled code can raise. `zeroDivisionError` models the
Python `ZeroDivisionError` raised by `/` when the denominator is zero. -/
inductive PyExc where
  | zeroDivisionError
  deriving Repr, DecidableEq

/-- Python `int(x)` for a float `x`: truncation toward zero. -/
def truncQ (q : ℚ) : ℤ :=
  if q < 0 then ⌈q⌉ else ⌊q⌋

/-- The arithmetic of `whisper_webui.py` line 185:
`bitrate = (target_size * 8) / (1.048576 * duration)`. -/
def bitrateFormula (duration target_size : ℚ) : ℚ :=
  (target_size * 8) / (1.048576 * duration)

/-- `whisper_webui.py` lines 184-186 (`calculate_bitrate`): the division
raises `ZeroDivisionError` when its denominator is zero, otherwise
`int(bitrate)` is returned.  The same expression appears in
`whisper_cli.py` lines 17-21. -/
def calculate_bitrate (duration target_size : ℚ) : Except PyExc ℤ :=
  if 1.048576 * duration = 0 then .error .zeroDivisionError
  else .ok (truncQ (bitrateFormula duration target_size))

/-- `whisper_webui.py` line 892/912, `whisper_cli.py` line 155:
`file_size = os.path.getsize(f) / (1024 * 1024)`. -/
def sizeInMB (sizeBytes : ℕ) : ℚ :=
  (sizeBytes : ℚ) / (1024 * 1024)

/-- `if audio_file_size > 25:` — the compression trigger of
`whisper_webui.py` line 913 / line 801 and `whisper_cli.py` line 158. -/
def needsCompression (sizeBytes : ℕ) : Bool :=
  decide (25 < sizeInMB sizeBytes)

lemma truncQ_of_nonneg {q : ℚ} (h : 0 ≤ q) : truncQ q = ⌊q⌋ := by
  rw [truncQ, if_neg (not_lt.mpr h)]

lemma truncQ_mono {a b : ℚ} (h : a ≤ b) : truncQ a ≤ truncQ b := by
  rw [truncQ, truncQ]
  by_cases ha : a < 0 <;> by_cases hb : b < 0
  · rw [if_pos ha, if_pos hb]; exact Int.ceil_le_ceil h
  · rw [if_pos ha, if_neg hb]
    exact le_trans (Int.ceil_le.mpr ha.le) (Int.floor_nonneg.mpr (not_lt.mp hb))
  · exact absurd (lt_of_le_of_lt h hb) ha
  · rw [if_neg ha, if_neg hb]; exact Int.floor_le_floor h

lemma calculate_bitrate_spec_point :
    calculate_bitrate 60 (24.9 * 1024) = .ok 3242 := by
  rw [calculate_bitrate, if_neg (by norm_num)]
  have hq : (0 : ℚ) ≤ bitrateFormula 60 (24.9 * 1024) := by
    rw [bitrateFormula]; norm_num
  rw [truncQ_of_nonneg hq, bitrateFormula]
  congr 1
  rw [Int.floor_eq_iff]
  norm_num

/-- Claim C1: the pipeline triggers compression exactly when the probed
size of the current working file is strictly greater than
`25 * 1024 * 1024` bytes; at exactly that size compression is skipped.
The trigger `needsCompression` is the comparison `file_size > 25` on
`file_size = size_bytes / (1024 * 1024)` shared by both source files. -/
theorem c1_compression_threshold (sizeBytes : ℕ) :
    (needsCompression sizeBytes = true ↔ 25 * 1024 * 1024 < sizeBytes) ∧
    needsCompression (25 * 1024 * 1024) = false := by
  constructor
  · rw [needsCompression, decide_eq_true_eq, sizeInMB,
      lt_div_iff₀ (by norm_num : (0 : ℚ) < 1024 * 1024)]
    constructor
    · intro h
      exact_mod_cast h
    · intro h
      exact_mod_cast h
  · rw [needsCompression, decide_eq_false_iff_not, sizeInMB]
    norm_num

/-- Claim C2, counterexample: at the point singled out by the claim
(duration 60 s, target `24.9 * 1024` KB) the planner returns 3242, not
3398: the exact value of the formula there is `3242 + 3/16`. -/
theorem c2_counterexample :
    calculate_bitrate 60 (24.9 * 1024) = .ok 3242 ∧ (3242 : ℤ) ≠ 3398 := by
  exact ⟨calculate_bitrate_spec_point, by decide⟩

/-- Claim C2 as amended: for every nonnegative target size and every
duration greater than 0 the planner returns
`⌊(target_size * 8) / (1.048576 * duration)⌋`, and at duration 60 s and
target `24.9 * 1024` KB the result is the integer 3242 (not 3398). -/
theorem c2_amended (duration target_size : ℚ)
    (hd : 0 < duration) (ht : 0 ≤ target_size) :
    calculate_bitrate duration target_size
      = .ok ⌊(target_size * 8) / (1.048576 * duration)⌋ ∧
    calculate_bitrate 60 (24.9 * 1024) = .ok 3242 := by
  constructor
  · have hden : (0 : ℚ) < 1.048576 * duration := by
      have : (0 : ℚ) < 1.048576 := by norm_num
      exact mul_pos this hd
    rw [calculate_bitrate, if_neg (ne_of_gt hden)]
    have hq : (0 : ℚ) ≤ bitrateFormula duration target_size := by
      rw [bitrateFormula]
      exact div_nonneg (by positivity) hden.le
    rw [truncQ_of_nonneg hq, bitrateFormula]
  · exact calculate_bitrate_spec_point

theorem c2_amended_witness :
    (0 : ℚ) < 60 ∧ (0 : ℚ) ≤ 24.9 * 1024 ∧
    calculate_bitrate 60 (24.9 * 1024)
      = .ok ⌊((24.9 * 1024 : ℚ) * 8) / (1.048576 * 60)⌋ :=
  ⟨by norm_num, by norm_num,
    (c2_amended 60 (24.9 * 1024) (by norm_num) (by norm_num)).1⟩

/-- Claim C6, counterexample: for the negative duration `-60` the planner
returns the integer `-3242` instead of failing with an
`InvalidDurationError`; the source performs no validation of `duration`. -/
theorem c6_counterexample :
    calculate_bitrate (-60) (24.9 * 1024) = .ok (-3242) := by
  rw [calculate_bitrate, if_neg (by norm_num)]
  have hq : bitrateFormula (-60) (24.9 * 1024) < 0 := by
    rw [bitrateFormula]; norm_num
  rw [truncQ, if_pos hq, bitrateFormula]
  congr 1
  rw [Int.ceil_eq_iff]
  norm_num

/-- Claim C6 as amended: the planner performs no duration validation.
For duration 0 the division raises `ZeroDivisionError` (an arithmetic
error, not an `InvalidDurationError`), for every nonzero duration —
negative ones included — it returns an integer normally. -/
theorem c6_amended (duration target_size : ℚ) :
    calculate_bitrate 0 target_size = .error .zeroDivisionError ∧
    (duration ≠ 0 → ∃ n : ℤ, calculate_bitrate duration target_size = .ok n) := by
  constructor
  · rw [calculate_bitrate, if_pos (by norm_num)]
  · intro hd
    refine ⟨truncQ (bitrateFormula duration target_size), ?_⟩
    rw [calculate_bitrate, if_neg (mul_ne_zero (by norm_num) hd)]

theorem c6_amended_witness :
    calculate_bitrate 0 (24.9 * 1024) = .error .zeroDivisionError ∧
    ((-60 : ℚ) ≠ 0 ∧ ∃ n : ℤ, calculate_bitrate (-60) (24.9 * 1024) = .ok n) :=
  ⟨(c6_amended (-60) (24.9 * 1024)).1,
    by norm_num, (c6_amended (-60) (24.9 * 1024)).2 (by norm_num)⟩

/-- Claim C7, counterexample: the planner is not strictly decreasing in
duration: for target size 1 the durations 8 < 9 both yield bitrate 0,
because `int(...)` truncates both values below 1 to the same integer. -/
theorem c7_counterexample :
    (0 : ℚ) < 8 ∧ (8 : ℚ) < 9 ∧
    calculate_bitrate 8 1 = .ok 0 ∧ calculate_bitrate 9 1 = .ok 0 := by
  refine ⟨by norm_num, by norm_num, ?_, ?_⟩ <;>
    · rw [calculate_bitrate, if_neg (by norm_num)]
      rw [truncQ_of_nonneg (by rw [bitrateFormula]; norm_num), bitrateFormula]
      congr 1
      rw [Int.floor_eq_iff]
      norm_num

/-- Claim C7 as amended: for every fixed nonnegative target size the
planner is non-strictly decreasing in duration (over positive durations),
and for every fixed positive duration it is non-strictly increasing in
target size.  Strictness fails because of the final truncation to an
integer. -/
theorem c7_amended :
    (∀ target_size d1 d2 : ℚ, 0 ≤ target_size → 0 < d1 → d1 ≤ d2 →
      truncQ (bitrateFormula d2 target_size) ≤ truncQ (bitrateFormula d1 target_size)) ∧
    (∀ duration t1 t2 : ℚ, 0 < duration → t1 ≤ t2 →
      truncQ (bitrateFormula duration t1) ≤ truncQ (bitrateFormula duration t2)) := by
  have hc : (0 : ℚ) < 1.048576 := by norm_num
  constructor
  · intro t d1 d2 ht hd1 hdle
    apply truncQ_mono
    rw [bitrateFormula, bitrateFormula]
    exact div_le_div_of_nonneg_left (by positivity) (mul_pos hc hd1)
      (by exact mul_le_mul_of_nonneg_left hdle hc.le)
  · intro d t1 t2 hd htle
    apply truncQ_mono
    rw [bitrateFormula, bitrateFormula]
    exact (div_le_div_iff_of_pos_right (mul_pos hc hd)).mpr
      (mul_le_mul_of_nonneg_right htle (by norm_num))

theorem c7_amended_witness :
    (0 : ℚ) ≤ 1 ∧ (0 : ℚ) < 8 ∧ (8 : ℚ) ≤ 9 ∧ (0 : ℚ) < 60 ∧ (1 : ℚ) ≤ 2 ∧
    truncQ (bitrateFormula 9 1) ≤ truncQ (bitrateFormula 8 1) ∧
    truncQ (bitrateFormula 60 1) ≤ truncQ (bitrateFormula 60 2) :=
  ⟨by norm_num, by norm_num, by norm_num, by norm_num, by norm_num,
    c7_amended.1 1 8 9 (by norm_num) (by norm_num) (by norm_num),
    c7_amended.2 60 1 2 (by norm_num) (by norm_num)⟩

/-!
Model of the format classifiers (`whisper_webui.py` lines 188-201,
`whisper_cli.py` lines 33-46).  Both compute
`os.path.splitext(filename)[1].lower()` and test membership in a literal
list of extensions.  `os.path.splitext` (CPython `genericpath._splitext`
with `sep = '/'`, `extsep = '.'`) finds the last `'.'` after the last
`'/'` and splits there, unless every character of the basename up to that
dot is itself a dot (leading dots do not start an extension).  Below the
basename is the maximal `'/'`-free suffix (`rtakeWhile`), the leading
dots are stripped with `dropWhile`, and the extension starts at the last
`'.'` of the remainder, i.e. it is `'.'` followed by the maximal
`'.'`-free suffix (`rtakeWhile`).
-/

def sepChar : Char := '/'

def extsepChar : Char := '.'

def isExtsep (c : Char) : Bool := c = extsepChar

def isNotExtsep (c : Char) : Bool := c ≠ extsepChar

def isNotSep (c : Char) : Bool := c ≠ sepChar

/-- The basename: everything after the last `'/'`. -/
def basenameChars (p : List Char) : List Char := p.rtakeWhile isNotSep

/-- The basename with its leading dots stripped; only there may an
extension start. -/
def extCore (p : List Char) : List Char := (basenameChars p).dropWhile isExtsep

/-- The extension part of `os.path.splitext`: from the last `'.'` of the
dot-stripped basename (empty when there is none). -/
def extChars (p : List Char) : List Char :=
  if extsepChar ∈ extCore p then extsepChar :: (extCore p).rtakeWhile isNotExtsep
  else []

/-- The root part of `os.path.splitext`: everything before the extension. -/
def rootChars (p : List Char) : List Char := p.take (p.length - (extChars p).length)

/-- Sanity anchors for the `os.path.splitext` model, matching CPython. -/
lemma extChars_examples :
    extChars "movie.MP4".toList = ".MP4".toList ∧
    extChars "archive.tar.gz".toList = ".gz".toList ∧
    extChars "/tmp/a.b/noext".toList = [] ∧
    extChars ".bashrc".toList = [] ∧
    extChars "...".toList = [] ∧
    extChars "..x.y".toList = ".y".toList ∧
    rootChars "movie.MP4".toList = "movie".toList := by decide

/-- The allow-list of `is_valid_media_format` (`whisper_webui.py` lines
189-194, identical in `whisper_cli.py`). -/
def valid_formats : List (List Char) :=
  [".mp3".toList, ".mp4".toList, ".mpeg".toList, ".mpga".toList, ".m4a".toList,
   ".wav".toList, ".webm".toList,
   ".avi".toList, ".mov".toList, ".mkv".toList, ".flv".toList, ".wmv".toList]

/-- The list of `is_video_format` (`whisper_webui.py` line 199,
`whisper_cli.py` line 44). -/
def video_formats : List (List Char) :=
  [".mp4".toList, ".avi".toList, ".mov".toList, ".mkv".toList, ".flv".toList,
   ".wmv".toList, ".webm".toList]

/-- Python `extension.lower()` on the extension returned by `splitext`;
only ASCII letters occur in the allow-lists, and `Char.toLower` agrees
with Python `str.lower` on them. -/
def lowerExt (e : List Char) : List Char := e.map Char.toLower

/-- `is_valid_media_format` (`whisper_webui.py` lines 188-196):
`extension.lower() in valid_formats` after `os.path.splitext`. -/
def is_valid_media_format (filename : String) : Bool :=
  decide (lowerExt (extChars filename.toList) ∈ valid_formats)

/-- `is_video_format` (`whisper_webui.py` lines 198-201, `whisper_cli.py`
lines 43-46). -/
def is_video_format (filename : String) : Bool :=
  decide (lowerExt (extChars filename.toList) ∈ video_formats)

lemma takeWhile_append_of_forall {α : Type} (p : α → Bool) (a b : List α)
    (h : ∀ x ∈ a, p x = true) :
    (a ++ b).takeWhile p = a ++ b.takeWhile p := by
  induction a with
  | nil => simp
  | cons x xs ih =>
      rw [List.cons_append, List.takeWhile_cons_of_pos (h x (by simp)),
        ih (fun y hy => h y (by simp [hy])), List.cons_append]

lemma dropWhile_append_of_forall {α : Type} (p : α → Bool) (a b : List α)
    (h : ∀ x ∈ a, p x = true) :
    (a ++ b).dropWhile p = b.dropWhile p := by
  induction a with
  | nil => simp
  | cons x xs ih =>
      rw [List.cons_append, List.dropWhile_cons_of_pos (h x (by simp)),
        ih (fun y hy => h y (by simp [hy]))]

lemma rtakeWhile_append_of_forall {α : Type} (p : α → Bool) (a b : List α)
    (h : ∀ x ∈ b, p x = true) :
    (a ++ b).rtakeWhile p = a.rtakeWhile p ++ b := by
  rw [List.rtakeWhile, List.rtakeWhile, List.reverse_append,
    takeWhile_append_of_forall p b.reverse a.reverse
      (fun x hx => h x (List.mem_reverse.mp hx)),
    List.reverse_append, List.reverse_reverse]

lemma rtakeWhile_append_cons_of_neg {α : Type} (p : α → Bool) (a : List α)
    (x : α) (b : List α) (hb : ∀ y ∈ b, p y = true) (hx : p x = false) :
    (a ++ x :: b).rtakeWhile p = b := by
  have h1 : a ++ x :: b = (a ++ [x]) ++ b := by simp
  rw [h1, rtakeWhile_append_of_forall p _ _ hb,
    List.rtakeWhile_concat_neg p a x (by simp [hx]), List.nil_append]

lemma rdropWhile_append_rtakeWhile {α : Type} (p : α → Bool) (l : List α) :
    l.rdropWhile p ++ l.rtakeWhile p = l := by
  rw [List.rdropWhile, List.rtakeWhile, ← List.reverse_append,
    List.takeWhile_append_dropWhile, List.reverse_reverse]

lemma suffix_take_append {α : Type} {l b : List α} (h : b <:+ l) :
    l.take (l.length - b.length) ++ b = l := by
  obtain ⟨a, rfl⟩ := h
  rw [List.length_append, Nat.add_sub_cancel, List.take_left]

lemma char_toLower_of_not_upper (c : Char) (h : ¬(65 ≤ c.toNat ∧ c.toNat ≤ 90)) :
    c.toLower = c := by
  unfold Char.toLower
  simp only [ge_iff_le, ite_eq_right_iff]
  intro h2
  exact absurd h2 h

lemma char_toNat_toLower_of_upper (c : Char) (h : 65 ≤ c.toNat ∧ c.toNat ≤ 90) :
    c.toLower.toNat = c.toNat + 32 := by
  unfold Char.toLower
  simp only [ge_iff_le, h, and_self, if_true]
  rw [Char.ofNat, dif_pos (Or.inl (by omega))]
  rfl

lemma char_toLower_cases (c : Char) :
    c.toLower = c ∨ (97 ≤ c.toLower.toNat ∧ c.toLower.toNat ≤ 122) := by
  by_cases h : 65 ≤ c.toNat ∧ c.toNat ≤ 90
  · right
    rw [char_toNat_toLower_of_upper c h]
    omega
  · left
    exact char_toLower_of_not_upper c h

lemma char_toLower_eq_extsep (c : Char) (h : c.toLower = extsepChar) :
    c = extsepChar := by
  rcases char_toLower_cases c with h1 | h1
  · rw [← h1, h]
  · rw [h] at h1
    exact absurd h1 (by decide)

lemma char_toLower_eq_sep (c : Char) (h : c.toLower = sepChar) :
    c = sepChar := by
  rcases char_toLower_cases c with h1 | h1
  · rw [← h1, h]
  · rw [h] at h1
    exact absurd h1 (by decide)

lemma char_toLower_idem (c : Char) :
    c.toLower.toLower = c.toLower := by
  rcases char_toLower_cases c with h1 | h1
  · rw [h1, h1]
  · exact char_toLower_of_not_upper c.toLower (by omega)

lemma lowerExt_idem (e : List Char) : lowerExt (lowerExt e) = lowerExt e := by
  induction e with
  | nil => rfl
  | cons x xs ih =>
      simp only [lowerExt, List.map_cons] at ih ⊢
      rw [char_toLower_idem, ih]

lemma extCore_eq (p : List Char) :
    extCore p = (basenameChars p).dropWhile isExtsep := rfl

lemma dropWhile_cons_head {α : Type} (p : α → Bool) (l : List α) (x : α)
    (xs : List α) (h : l.dropWhile p = x :: xs) : p x = false := by
  induction l with
  | nil => simp at h
  | cons y ys ih =>
      rw [List.dropWhile_cons] at h
      by_cases hy : p y
      · rw [if_pos hy] at h
        exact ih h
      · rw [if_neg hy] at h
        cases h
        simpa using hy

/-- The heart of claim C10: if the extension computed by the `splitext`
model is replaced by its image under any character map `g` that fixes
`'.'` and creates neither `'.'` nor `'/'`, then `splitext` of the
modified filename returns exactly the mapped extension. -/
lemma extChars_root_append (p : List Char) (g : Char → Char)
    (hgdot : ∀ c, g c = extsepChar → c = extsepChar)
    (hgfix : g extsepChar = extsepChar)
    (hgsep : ∀ c, g c = sepChar → c = sepChar) :
    extChars (rootChars p ++ (extChars p).map g) = (extChars p).map g := by
  by_cases hmem : extsepChar ∈ extCore p
  case neg =>
    have he : extChars p = [] := by rw [extChars, if_neg hmem]
    rw [he, List.map_nil, List.append_nil, rootChars, he, List.length_nil,
      Nat.sub_zero, List.take_length, he]
  case pos =>
    have hCsuffix : extCore p <:+ basenameChars p := by
      rw [extCore_eq]
      exact List.dropWhile_suffix isExtsep
    have hBsep : ∀ x ∈ basenameChars p, x ≠ sepChar := by
      intro x hx
      have h1 := List.mem_rtakeWhile_imp hx
      simpa [isNotSep] using h1
    have hCsep : ∀ x ∈ extCore p, x ≠ sepChar :=
      fun x hx => hBsep x (hCsuffix.subset hx)
    have hsplit : (extCore p).rdropWhile isNotExtsep
        ++ (extCore p).rtakeWhile isNotExtsep = extCore p :=
      rdropWhile_append_rtakeWhile isNotExtsep (extCore p)
    have hDne : (extCore p).rdropWhile isNotExtsep ≠ [] := by
      intro h0
      rw [List.rdropWhile_eq_nil_iff] at h0
      have h1 := h0 extsepChar hmem
      simp [isNotExtsep] at h1
    have hlast : ((extCore p).rdropWhile isNotExtsep).getLast hDne = extsepChar := by
      have h1 := List.rdropWhile_last_not isNotExtsep (extCore p) hDne
      simpa [isNotExtsep] using h1
    have hD : (extCore p).rdropWhile isNotExtsep
        = ((extCore p).rdropWhile isNotExtsep).dropLast ++ [extsepChar] := by
      conv_lhs => rw [← List.dropLast_append_getLast hDne]
      rw [hlast]
    have hdecomp : extCore p
        = (((extCore p).rdropWhile isNotExtsep).dropLast ++ [extsepChar])
          ++ (extCore p).rtakeWhile isNotExtsep := by
      conv_lhs => rw [← hsplit]
      rw [← hD]
    have hext : extChars p
        = extsepChar :: (extCore p).rtakeWhile isNotExtsep := by
      rw [extChars, if_pos hmem]
    have hTdot : ∀ x ∈ (extCore p).rtakeWhile isNotExtsep, x ≠ extsepChar := by
      intro x hx
      have h1 := List.mem_rtakeWhile_imp hx
      simpa [isNotExtsep] using h1
    have hTsub : ∀ x ∈ (extCore p).rtakeWhile isNotExtsep, x ∈ extCore p :=
      fun x hx => (List.rtakeWhile_suffix isNotExtsep (extCore p)).subset hx
    cases hcp : ((extCore p).rdropWhile isNotExtsep).dropLast with
    | nil =>
        rw [hcp, List.nil_append, List.singleton_append] at hdecomp
        have h0 : (basenameChars p).dropWhile isExtsep
            = extsepChar :: (extCore p).rtakeWhile isNotExtsep := by
          rw [← extCore_eq]
          exact hdecomp
        have h1 := dropWhile_cons_head isExtsep (basenameChars p) extsepChar _ h0
        simp [isExtsep] at h1
    | cons c0 cps =>
        rw [hcp] at hdecomp
        have h0 : (basenameChars p).dropWhile isExtsep
            = c0 :: (cps ++ [extsepChar] ++ (extCore p).rtakeWhile isNotExtsep) := by
          conv_lhs => rw [← extCore_eq, hdecomp]
          simp only [List.cons_append]
        have hc0 : isExtsep c0 = false :=
          dropWhile_cons_head isExtsep (basenameChars p) c0 _ h0
        have hextC : extChars p <:+ extCore p := by
          rw [hext]
          refine ⟨c0 :: cps, ?_⟩
          conv_rhs => rw [hdecomp]
          simp only [List.cons_append, List.singleton_append, List.append_assoc,
            List.nil_append, List.append_nil]
        have hextc_p : extChars p <:+ p :=
          (hextC.trans hCsuffix).trans (List.rtakeWhile_suffix isNotSep p)
        have hp_eq : rootChars p ++ extChars p = p := by
          rw [rootChars]
          exact suffix_take_append hextc_p
        have hextB : ∀ x ∈ extChars p, isNotSep x = true := by
          intro x hx
          rw [hext] at hx
          rcases List.mem_cons.mp hx with rfl | hx2
          · decide
          · simp only [isNotSep, decide_eq_true_eq]
            exact hCsep x (hTsub x hx2)
        have hB1 : basenameChars p = basenameChars (rootChars p) ++ extChars p := by
          conv_lhs => rw [← hp_eq]
          rw [basenameChars, basenameChars]
          exact rtakeWhile_append_of_forall isNotSep (rootChars p) (extChars p) hextB
        have hB2 : basenameChars p
            = ((basenameChars p).takeWhile isExtsep ++ (c0 :: cps)) ++ extChars p := by
          conv_lhs => rw [← List.takeWhile_append_dropWhile isExtsep (basenameChars p)]
          rw [← extCore_eq, hdecomp, hext]
          simp
        have hBroot : basenameChars (rootChars p)
            = (basenameChars p).takeWhile isExtsep ++ (c0 :: cps) :=
          List.append_cancel_right (hB1.symm.trans hB2)
        have hext' : (extChars p).map g
            = extsepChar :: ((extCore p).rtakeWhile isNotExtsep).map g := by
          rw [hext, List.map_cons, hgfix]
        have hTdot' : ∀ x ∈ ((extCore p).rtakeWhile isNotExtsep).map g,
            x ≠ extsepChar := by
          intro x hx
          obtain ⟨y, hy, rfl⟩ := List.mem_map.mp hx
          intro hcon
          exact hTdot y hy (hgdot y hcon)
        have hTsep' : ∀ x ∈ ((extCore p).rtakeWhile isNotExtsep).map g,
            x ≠ sepChar := by
          intro x hx
          obtain ⟨y, hy, rfl⟩ := List.mem_map.mp hx
          intro hcon
          exact hCsep y (hTsub y hy) (hgsep y hcon)
        have hextB' : ∀ x ∈ (extChars p).map g, isNotSep x = true := by
          intro x hx
          rw [hext'] at hx
          rcases List.mem_cons.mp hx with rfl | hx2
          · decide
          · simp only [isNotSep, decide_eq_true_eq]
            exact hTsep' x hx2
        have hStep1 : basenameChars (rootChars p ++ (extChars p).map g)
            = basenameChars (rootChars p) ++ (extChars p).map g := by
          rw [basenameChars, basenameChars]
          exact rtakeWhile_append_of_forall isNotSep (rootChars p)
            ((extChars p).map g) hextB'
        have hlead : ∀ x ∈ (basenameChars p).takeWhile isExtsep,
            isExtsep x = true :=
          fun x hx => List.mem_takeWhile_imp hx
        have hStep3 : extCore (rootChars p ++ (extChars p).map g)
            = (c0 :: cps)
              ++ extsepChar :: ((extCore p).rtakeWhile isNotExtsep).map g := by
          rw [extCore_eq, hStep1, hBroot, hext', List.append_assoc]
          rw [dropWhile_append_of_forall isExtsep
            ((basenameChars p).takeWhile isExtsep) _ hlead]
          rw [List.cons_append]
          rw [List.dropWhile_cons_of_neg (by simp [hc0])]
        have hmem' : extsepChar ∈ extCore (rootChars p ++ (extChars p).map g) := by
          rw [hStep3]
          exact List.mem_append_right _ (List.mem_cons_self _ _)
        have hT'ne : ∀ x ∈ ((extCore p).rtakeWhile isNotExtsep).map g,
            isNotExtsep x = true := by
          intro x hx
          simp only [isNotExtsep, decide_eq_true_eq]
          exact hTdot' x hx
        have hStep5 : (extCore (rootChars p ++ (extChars p).map g)).rtakeWhile
            isNotExtsep = ((extCore p).rtakeWhile isNotExtsep).map g := by
          rw [hStep3]
          exact rtakeWhile_append_cons_of_neg isNotExtsep (c0 :: cps) extsepChar
            _ hT'ne (by simp [isNotExtsep])
        rw [extChars, if_pos hmem', hStep5, ← hext']

/-- Claim C10: format classification only depends on the extension up to
ASCII case.  For every filename, replacing the extension computed by
`os.path.splitext` with its lowercase form changes neither the
accepted/rejected verdict of `is_valid_media_format` nor the audio/video
verdict of `is_video_format`; e.g. a name ending in `.MP4` classifies
exactly like the same name ending in `.mp4`. -/
theorem c10_classification_case_insensitive (filename : String) :
    is_valid_media_format
        ⟨rootChars filename.toList ++ lowerExt (extChars filename.toList)⟩
      = is_valid_media_format filename ∧
    is_video_format
        ⟨rootChars filename.toList ++ lowerExt (extChars filename.toList)⟩
      = is_video_format filename := by
  have hg : extChars (rootChars filename.toList ++ lowerExt (extChars filename.toList))
      = lowerExt (extChars filename.toList) :=
    extChars_root_append filename.toList Char.toLower
      char_toLower_eq_extsep (by decide) char_toLower_eq_sep
  refine ⟨?_, ?_⟩
  · rw [is_valid_media_format, is_valid_media_format]
    rw [show (⟨rootChars filename.toList ++ lowerExt (extChars filename.toList)⟩ :
      String).toList = rootChars filename.toList ++ lowerExt (extChars filename.toList)
      from rfl]
    rw [hg, lowerExt_idem]
  · rw [is_video_format, is_video_format]
    rw [show (⟨rootChars filename.toList ++ lowerExt (extChars filename.toList)⟩ :
      String).toList = rootChars filename.toList ++ lowerExt (extChars filename.toList)
      from rfl]
    rw [hg, lowerExt_idem]

/-!
Model of the two pipeline orchestrators.

The webui upload pipeline (`whisper_webui.py`, `main`, lines 885-1010):
the uploaded bytes are saved to a fresh temporary file `temp_input`; for a
video, `extract_audio_from_video` (lines 203-213) first creates its output
temporary file with `tempfile.NamedTemporaryFile(delete=False)` (line 205)
and only then runs ffmpeg — so the extracted file exists on disk whether or
not the transcoder succeeds; on a nonzero exit the failure handler (lines
901-907) unlinks only `temp_input` and stops, leaving that output file
behind; otherwise the size of the current working file is probed and,
above the threshold, `compress_audio` writes a third temporary file;
transcription errors are caught and have no file effects; finally the
cleanup block (lines 1001-1010) runs
`os.unlink(temp_input.name)`, then unlinks `audio_file` when
`is_video and os.path.exists(audio_file) and audio_file != input_file`,
then unlinks `input_file` when
`audio_file_size > 25 and os.path.exists(input_file) and input_file != audio_file`.
Distinct temporary files have distinct paths, so the two inequality
guards hold exactly when compression ran.

The CLI pipeline (`whisper_cli.py`, `main`, lines 152-168): a video input
is replaced by its extracted audio and nothing else happens to it; only in
the `else` branch (non-video input) is the size probed and compression
performed.  The CLI never deletes any file.
-/

/-- Which files exist on disk after a webui upload run.  The user's
original file lives in the browser upload, never on the server; the three
components are the temporary copy, the extracted audio and the compressed
audio. -/
structure FileState where
  tempInput : Bool
  extracted : Bool
  compressed : Bool
  deriving Repr, DecidableEq

/-- The working file handed to the transcription stage. -/
inductive WorkFile where
  | tempInputFile
  | extractedFile
  | compressedFile
  deriving Repr, DecidableEq

/-- One webui upload run, abstracted: whether the upload was classified
video, the byte sizes the two `os.path.getsize` probes would report, the
exit status of the extraction transcoder, and whether the transcription
call succeeds (its errors are caught by the `except` arm, so it must not
affect the file outcome). -/
structure UploadJob where
  isVideo : Bool
  inputSize : ℕ
  extractOk : Bool
  extractedSize : ℕ
  transcribeOk : Bool
  deriving Repr, DecidableEq

/-- Transcription of `whisper_webui.py` lines 885-1010: returns the final
file state and the working file given to transcription (`none` when the
run stopped at a failed extraction). -/
def webuiUploadRun (j : UploadJob) : FileState × Option WorkFile :=
  let fs0 : FileState := ⟨true, false, false⟩
  if j.isVideo && !j.extractOk then
    ({ fs0 with tempInput := false, extracted := true }, none)
  else
    let fs1 : FileState := if j.isVideo then { fs0 with extracted := true } else fs0
    let audioSize : ℕ := if j.isVideo then j.extractedSize else j.inputSize
    let oversized : Bool := needsCompression audioSize
    let fs2 : FileState := if oversized then { fs1 with compressed := true } else fs1
    let handed : WorkFile :=
      if oversized then .compressedFile
      else if j.isVideo then .extractedFile else .tempInputFile
    let fs3 : FileState := { fs2 with tempInput := false }
    let existsAudio : Bool := if j.isVideo then fs3.extracted else fs3.tempInput
    let fs4 : FileState :=
      if j.isVideo && existsAudio && oversized then { fs3 with extracted := false }
      else fs3
    let fs5 : FileState :=
      if oversized && fs4.compressed then { fs4 with compressed := false } else fs4
    (fs5, some handed)

/-- A CLI invocation, abstracted: the input filename and the byte sizes
`os.path.getsize` would report for the input and for the extracted
audio. -/
structure CliJob where
  filename : String
  inputSize : ℕ
  extractedSize : ℕ

/-- The working file the CLI hands to transcription. -/
inductive CliFile where
  | original
  | extracted
  | compressed
  deriving Repr, DecidableEq

/-- Transcription of `whisper_cli.py` lines 152-168: the working file and
whether compression ran.  The size probe sits in the `else` branch, so a
video input is only extracted. -/
def cliPipeline (j : CliJob) : CliFile × Bool :=
  if is_video_format j.filename then (.extracted, false)
  else if needsCompression j.inputSize then (.compressed, true)
  else (.original, false)

lemma needsCompression_20MiB : needsCompression 20971520 = false := by
  rw [needsCompression, decide_eq_false_iff_not, sizeInMB]
  norm_num

lemma needsCompression_30MiB : needsCompression 31457280 = true := by
  rw [needsCompression, decide_eq_true_eq, sizeInMB]
  norm_num

/-- Claim C3, counterexample: a video upload of 30 MiB whose extracted
audio is 20 MiB runs to completion, yet after cleanup the extracted
temporary file still exists: the guard `audio_file != input_file` is
false when no compression happened, so the unlink is skipped. -/
theorem c3_counterexample :
    webuiUploadRun ⟨true, 31457280, true, 20971520, true⟩
      = (⟨false, true, false⟩, some .extractedFile) := by
  simp [webuiUploadRun, needsCompression_20MiB]

/-- Claim C3 as amended: after any webui upload run the temporary input
copy and the compressed file are always gone, but the extracted audio
file survives exactly when the input was a video and either its
extraction failed (the extractor creates its output file before running
the transcoder, and the failure handler removes only the temporary input
copy) or its extracted audio was at or below the compression threshold
(the cleanup guard `audio_file != input_file` is false then); the
outcome never depends on whether transcription succeeded. -/
theorem c3_amended (j : UploadJob) :
    (webuiUploadRun j).1.tempInput = false ∧
    (webuiUploadRun j).1.compressed = false ∧
    ((webuiUploadRun j).1.extracted = true ↔
      (j.isVideo = true ∧ (j.extractOk = false ∨
        needsCompression j.extractedSize = false))) := by
  rcases j with ⟨iv, is0, eo, es, tk⟩
  cases iv <;> cases eo <;> cases hc : needsCompression es <;>
    cases hc2 : needsCompression is0 <;> simp [webuiUploadRun, hc, hc2]

/-- Claim C4, counterexample: the CLI pipeline on a 30 MiB video whose
extracted audio is also 30 MiB (above the threshold) hands the extracted
file to transcription without running compression: its size probe lives
in the non-video branch only. -/
theorem c4_counterexample :
    is_video_format "movie.mp4" = true ∧
    needsCompression 31457280 = true ∧
    cliPipeline ⟨"movie.mp4", 31457280, 31457280⟩ = (.extracted, false) := by
  refine ⟨by decide, needsCompression_30MiB, ?_⟩
  rw [cliPipeline, if_pos (by decide)]

/-- Claim C4 as amended: in the webui pipeline every successfully
extracted video has the size probe applied to the post-extraction file,
and compression runs exactly when that file exceeds the threshold; the
CLI pipeline however performs no size probe and no compression at all on
video inputs — it always hands the extracted file on unchanged. -/
theorem c4_amended :
    (∀ j : UploadJob, j.isVideo = true → j.extractOk = true →
      (webuiUploadRun j).2
        = some (if needsCompression j.extractedSize then WorkFile.compressedFile
            else WorkFile.extractedFile)) ∧
    (∀ c : CliJob, is_video_format c.filename = true →
      cliPipeline c = (.extracted, false)) := by
  constructor
  · intro j h1 h2
    rcases j with ⟨iv, is0, eo, es, tk⟩
    cases h1
    cases h2
    cases hc : needsCompression es <;> simp [webuiUploadRun, hc]
  · intro c h
    rw [cliPipeline, if_pos h]

theorem c4_amended_witness :
    is_video_format "clip.mkv" = true ∧
    (webuiUploadRun ⟨true, 31457280, true, 31457280, true⟩).2
      = some (if needsCompression 31457280 then WorkFile.compressedFile
          else WorkFile.extractedFile) ∧
    cliPipeline ⟨"clip.mkv", 31457280, 31457280⟩ = (.extracted, false) :=
  ⟨by decide,
    c4_amended.1 ⟨true, 31457280, true, 31457280, true⟩ rfl rfl,
    c4_amended.2 ⟨"clip.mkv", 31457280, 31457280⟩ (by decide)⟩

/-!
Model of the webui compressor (`whisper_webui.py` lines 175-182).
`compress_audio` probes the duration, computes the target bitrate with the
planner formula (which raises `ZeroDivisionError` for a zero duration),
invokes the transcoder with `subprocess.run(cmd, capture_output=True)` —
without `check=True` and without ever reading `returncode` — and returns
`output_file` unconditionally.  The probed duration and the process exit
status are passed in as arguments.
-/

def compress_audio (duration : ℚ) (ffmpegExitCode : ℤ) (output_file : String)
    (target_size : ℚ) : Except PyExc String :=
  if 1.048576 * duration = 0 then .error .zeroDivisionError
  else
    let _target_bitrate : ℤ := truncQ (bitrateFormula duration target_size)
    .ok output_file

/-- Claim C5, counterexample: a compressor invocation in which the
transcoder exits with status 1 still returns the output path as a
success; the webui `compress_audio` never inspects the exit status. -/
theorem c5_counterexample :
    compress_audio 60 1 "compressed.mp3" (24.9 * 1024)
      = .ok "compressed.mp3" := by
  rw [compress_audio, if_neg (by norm_num)]

/-- Claim C5 as amended: for every transcoder exit status — zero or not —
the webui Compressor returns the output path as if it had succeeded
(provided the probed duration is nonzero, otherwise the bitrate
computation raises beforehand); no `CompressionError` exists in the
code.  The CLI compressor delegates to the pydub library, which is the
only place a failed encode raises. -/
theorem c5_amended (duration : ℚ) (ffmpegExitCode : ℤ) (output_file : String)
    (target_size : ℚ) (hd : duration ≠ 0) :
    compress_audio duration ffmpegExitCode output_file target_size
      = .ok output_file := by
  rw [compress_audio, if_neg (mul_ne_zero (by norm_num) hd)]

theorem c5_amended_witness :
    (60 : ℚ) ≠ 0 ∧
    compress_audio 60 1 "out.mp3" (24.9 * 1024) = .ok "out.mp3" :=
  ⟨by norm_num, c5_amended 60 1 "out.mp3" (24.9 * 1024) (by norm_num)⟩

/-!
Model of the per-provider language argument (`whisper_webui.py`).
`transcribe_audio_groq` (line 254) and `transcribe_audio_openai`
(line 276) pass `language=None if language == "auto" else language` to
their clients; `transcribe_audio_fal` (line 305) puts
`"auto" if language == "auto" else language` into its request body.
-/

def groq_request_language (language : String) : Option String :=
  if language = "auto" then none else some language

def openai_request_language (language : String) : Option String :=
  if language = "auto" then none else some language

def fal_request_language (language : String) : String :=
  if language = "auto" then "auto" else language

/-- Claim C8: with the sentinel "auto", OpenAI and Groq are called with
the language omitted (`None`) while Fal receives the literal string
"auto"; any other language value reaches all three providers
unchanged. -/
theorem c8_auto_language_sentinel :
    groq_request_language "auto" = none ∧
    openai_request_language "auto" = none ∧
    fal_request_language "auto" = "auto" ∧
    (∀ language : String, language ≠ "auto" →
      groq_request_language language = some language ∧
      openai_request_language language = some language ∧
      fal_request_language language = language) := by
  refine ⟨rfl, rfl, rfl, ?_⟩
  intro language h
  exact ⟨by rw [groq_request_language, if_neg h],
    by rw [openai_request_language, if_neg h],
    by rw [fal_request_language, if_neg h]⟩

theorem c8_auto_language_sentinel_witness :
    ("en" : String) ≠ "auto" ∧
    groq_request_language "en" = some "en" ∧
    openai_request_language "en" = some "en" ∧
    fal_request_language "en" = "en" :=
  ⟨by decide, c8_auto_language_sentinel.2.2.2 "en" (by decide)⟩

/-!
Model of the history store (`whisper_webui.py` lines 26-134).  The
SQLite table `transcriptions` is a list of rows; `id` is the integer
primary key, `favorite` a 0/1 integer (`BOOLEAN DEFAULT 0`).
`toggle_favorite` executes
`UPDATE transcriptions SET favorite = ? WHERE id = ?` with
`1 if favorite_status else 0`; `delete_transcription` executes
`DELETE FROM transcriptions WHERE id = ?`.
-/

structure HistoryRecord where
  id : ℤ
  timestamp : String
  source_name : String
  source_type : String
  api_used : String
  language : String
  duration : Option ℚ
  transcript : String
  favorite : ℤ
  deriving Repr, DecidableEq

/-- `toggle_favorite` (lines 109-121): set `favorite` on the rows whose
`id` matches, leave every other row untouched. -/
def toggle_favorite (store : List HistoryRecord) (transcription_id : ℤ)
    (favorite_status : Bool) : List HistoryRecord :=
  store.map fun r =>
    if r.id = transcription_id then
      { r with favorite := if favorite_status then 1 else 0 }
    else r

/-- `delete_transcription` (lines 123-134): remove the rows whose `id`
matches. -/
def delete_transcription (store : List HistoryRecord)
    (transcription_id : ℤ) : List HistoryRecord :=
  store.filter fun r => r.id ≠ transcription_id

/-- All fields except `favorite` agree. -/
def sameApartFromFavorite (r r2 : HistoryRecord) : Prop :=
  r2.id = r.id ∧ r2.timestamp = r.timestamp ∧ r2.source_name = r.source_name ∧
  r2.source_type = r.source_type ∧ r2.api_used = r.api_used ∧
  r2.language = r.language ∧ r2.duration = r.duration ∧
  r2.transcript = r.transcript

/-- Claim C9: a favorite toggle is a pure frame update.  Row by row, the
result of `toggle_favorite` keeps every field except `favorite`
unchanged; rows whose id matches get `favorite` set to the requested 0/1
value, and rows with any other id are returned completely unchanged (in
particular the store keeps exactly the same rows in the same order, so
apart from this flag and `delete_transcription` the store is
append-only). -/
theorem c9_toggle_favorite_frame (store : List HistoryRecord)
    (transcription_id : ℤ) (favorite_status : Bool) :
    List.Forall₂
      (fun r r2 => sameApartFromFavorite r r2 ∧
        (r.id = transcription_id →
          r2.favorite = if favorite_status then 1 else 0) ∧
        (r.id ≠ transcription_id → r2 = r))
      store (toggle_favorite store transcription_id favorite_status) := by
  induction store with
  | nil => exact List.Forall₂.nil
  | cons r rest ih =>
      refine List.Forall₂.cons ?_ ih
      by_cases h : r.id = transcription_id <;>
        simp [h, sameApartFromFavorite]
